import Mathlib

/-!
Verification of the syllabus-PDF ingestion pipeline (notebook source).

Shallow embedding conventions:
* Strings are `List Char` (`chars s` converts a Lean string literal).
* Python whitespace (`\s`, `str.strip`) is modelled by `isPyWs`, covering the
  ASCII whitespace characters space, tab, newline, carriage return, vertical
  tab and form feed (the only whitespace occurring in the pipeline's data).
* `str.lower` is modelled by `pyToLower`, lowering ASCII `A`-`Z` and the
  Latin-1 uppercase letters (which covers every phrase the code compares).
* The source interpolates section markers and derived course codes into
  regular-expression patterns as f-strings; every such interpolated value in
  the repository is a fixed literal (or a previously matched alphanumeric
  code) containing no regex metacharacters, so the embedding interprets them
  as literal substrings.  Each fixed regular expression of the source is
  embedded by a dedicated function whose doc comment quotes the pattern;
  the leftmost-match and greedy/lazy backtracking behaviour of Python `re`
  on these particular patterns is reproduced directly.
-/

/-- Characters of a string literal. -/
def chars (s : String) : List Char := s.data

/-- Python whitespace predicate (ASCII fragment of `\s` / `str.strip`). -/
def isPyWs (c : Char) : Bool :=
  c = ' ' || c = '\t' || c = '\n' || c = '\r' || c = '\x0b' || c = '\x0c'

/-- Uppercase ASCII letter test (`[A-Z]`). -/
def isUpperAZ (c : Char) : Bool :=
  if 'A' ≤ c ∧ c ≤ 'Z' then true else false

/-- Python `str.lower`, restricted to ASCII and Latin-1 uppercase letters. -/
def pyToLower (c : Char) : Char :=
  if 'A' ≤ c ∧ c ≤ 'Z' then Char.ofNat (c.toNat + 32)
  else if 0xC0 ≤ c.toNat ∧ c.toNat ≤ 0xDE ∧ c.toNat ≠ 0xD7 then Char.ofNat (c.toNat + 32)
  else c

/-- `str.lower` on a whole string. -/
def pyLower (s : List Char) : List Char := s.map pyToLower

/-- Python `str.strip()`: drop leading and trailing whitespace. -/
def stripPy (s : List Char) : List Char :=
  ((s.dropWhile isPyWs).reverse.dropWhile isPyWs).reverse

/-- Python `str.split('\n')` (keeps empty pieces). -/
def splitNl : List Char → List (List Char)
  | [] => [[]]
  | c :: cs =>
    if c = '\n' then [] :: splitNl cs
    else
      match splitNl cs with
      | [] => [[c]]
      | l :: ls => (c :: l) :: ls

/-- Python `'\n'.join(...)`. -/
def joinNl : List (List Char) → List Char
  | [] => []
  | [l] => l
  | l :: ls => l ++ '\n' :: joinNl ls

/-- Python `re.sub(r'\s+', ' ', ...)`: replace each whitespace run by one space. -/
def collapseWs : List Char → List Char
  | [] => []
  | [c] => if isPyWs c then [' '] else [c]
  | c :: d :: cs =>
    if isPyWs c then
      if isPyWs d then collapseWs (d :: cs) else ' ' :: collapseWs (d :: cs)
    else c :: collapseWs (d :: cs)

/-- Index of the first occurrence of `pat` as a contiguous sublist of `hay`
(the position where `re.search` finds a literal pattern). -/
def findSub (pat : List Char) : List Char → Option Nat
  | [] => if pat.isPrefixOf [] then some 0 else none
  | c :: t =>
    if pat.isPrefixOf (c :: t) then some 0
    else (findSub pat t).map (· + 1)

/-- Python `pat in hay` for strings. -/
def containsSub (hay pat : List Char) : Bool := (findSub pat hay).isSome

/-- Leftmost-match driver: try `f` on every suffix, left to right
(the scan a `re.search` performs over candidate start positions). -/
def scanSuffixes (f : List Char → Option α) : List Char → Option α
  | [] => f []
  | c :: t =>
    match f (c :: t) with
    | some a => some a
    | none => scanSuffixes f t

/-- Earliest position at which one of the literal alternatives starts
(the position where a lookahead `(?=p₁|p₂|…)` first succeeds). -/
def firstAnyPos (pats : List (List Char)) : List Char → Option Nat
  | [] => if pats.any (fun p => p.isPrefixOf []) then some 0 else none
  | c :: t =>
    if pats.any (fun p => p.isPrefixOf (c :: t)) then some 0
    else (firstAnyPos pats t).map (· + 1)

/-- Lazy capture up to a lookahead `(?=p₁|p₂|…)` with no `$` alternative:
fails when no alternative occurs. -/
def takeUntilAny (pats : List (List Char)) (s : List Char) : Option (List Char) :=
  (firstAnyPos pats s).map (s.take ·)

/-- Lazy capture up to a lookahead `(?=p₁|p₂|…|$)`: runs to the end of the
text when no alternative occurs. -/
def takeUntilAnyOrEnd (pats : List (List Char)) (s : List Char) : List Char :=
  match firstAnyPos pats s with
  | some q => s.take q
  | none => s

/-- Source: `extract_section_from_pdf(text, section_start, section_end=None)`.
With an end marker the pattern is `f"{section_start}(.*?){section_end}"`,
without one it is `f"{section_start}(.*?)(?=(?:Bibliografia|Resumo da Alteração|$))"`,
both searched with `re.DOTALL`; the stripped group is returned, `""` when
there is no match.  Markers are interpreted literally (they are fixed
metacharacter-free literals at every call site). -/
def extract_section_from_pdf (text section_start : List Char)
    (section_end : Option (List Char) := none) : List Char :=
  match findSub section_start text with
  | none => []
  | some i =>
    let rest := text.drop (i + section_start.length)
    match section_end with
    | some e =>
      match findSub e rest with
      | none => []
      | some j => stripPy (rest.take j)
    | none =>
      stripPy (takeUntilAnyOrEnd [chars "Bibliografia", chars "Resumo da Alteração"] rest)

/-- One position of the course-code pattern `(p₁|…|pₖ)\d+C` where `C` is
`[A-Z0-9]` (`digitTail = true`) or `[A-Z]` (`digitTail = false`): try each
prefix alternative in order; after it take the maximal digit run (`\d+`
greedy, at least one digit); the class then takes the next character if it
is an uppercase letter, otherwise — only when the class admits digits —
`\d+` backtracks one digit to serve as the class character.  Returns the
matched substring and the remainder of the text after the match. -/
def matchCodeHere (prefixes : List (List Char)) (digitTail : Bool)
    (s : List Char) : Option (List Char × List Char) :=
  prefixes.findSome? fun p =>
    if p.isPrefixOf s then
      let r := s.drop p.length
      let ds := r.takeWhile Char.isDigit
      if ds.isEmpty then none
      else
        match r.dropWhile Char.isDigit with
        | c :: rest =>
          if isUpperAZ c then some (p ++ ds ++ [c], rest)
          else if digitTail then
            if 2 ≤ ds.length then some (p ++ ds, c :: rest) else none
          else none
        | [] =>
          if digitTail then
            if 2 ≤ ds.length then some (p ++ ds, ([] : List Char)) else none
          else none
    else none

/-- Leftmost `re.search` of the course-code pattern. -/
def searchCode (prefixes : List (List Char)) (digitTail : Bool)
    (text : List Char) : Option (List Char × List Char) :=
  scanSuffixes (matchCodeHere prefixes digitTail) text

/-- A mapping of named fields to string values: the Python metadata dict.
`codigo`/`disciplina` are absent until the corresponding pattern matches;
`secao` is present only on syllabus-topic chunks. -/
structure Metadata where
  codigo : Option (List Char) := none
  disciplina : Option (List Char) := none
  modalidade : List Char := []
  oferta : List Char := []
  secao : Option (List Char) := none
deriving DecidableEq

/-- Python falsiness of `metadata.get(key)`: the key is absent or holds `""`. -/
def optFalsy : Option (List Char) → Bool
  | none => true
  | some s => s.isEmpty

/-- Source: `extract_metadata_from_header(text)`.  The course code comes from
`re.search(r'(CC|PP)\d+[A-Z]', text)`; on a match `codigo` is the matched
substring and `disciplina` is `text[match.end():].split('\n')[0].strip()`.
`modalidade`/`oferta` are keyword-presence tests. -/
def extract_metadata_from_header (text : List Char) : Metadata :=
  let cd := searchCode [chars "CC", chars "PP"] false text
  { codigo := cd.map (·.1)
    disciplina := cd.map fun p => stripPy (p.2.takeWhile (· ≠ '\n'))
    modalidade :=
      if containsSub text (chars "Presencial") then chars "Presencial"
      else chars "Não Presencial"
    oferta :=
      if containsSub text (chars "Semestral") then chars "Semestral"
      else chars "Anual" }

/-- The lookahead alternatives `(?=Nota/Conceito|Frequência|Presencial|Semestral)`
of the three disciplina patterns in the identification branch. -/
def identStops : List (List Char) :=
  [chars "Nota/Conceito", chars "Frequência", chars "Presencial", chars "Semestral"]

/-- Identification-branch disciplina pattern 1,
`rf'{codigo}\s+(.*?)(?=Nota/Conceito|Frequência|Presencial|Semestral)'` with
`re.DOTALL` (`codigo` is the literal just matched by the code pattern):
leftmost occurrence of the code followed by at least one whitespace
character; `\s+` greedily eats the whole whitespace run and the lazy group
runs to the earliest lookahead alternative (no `$` fallback). -/
def discPat1 (codigo text : List Char) : Option (List Char) :=
  scanSuffixes (fun s =>
    if codigo.isPrefixOf s then
      let r := s.drop codigo.length
      if (r.takeWhile isPyWs).isEmpty then none
      else takeUntilAny identStops (r.dropWhile isPyWs)
    else none) text

/-- Identification-branch disciplina pattern 2,
`r'Disciplina/Unidade[^>]*?([^>]*?)(?=Nota/Conceito|Frequência|Presencial|Semestral)'`:
leftmost occurrence of the literal after which some lookahead alternative
starts with no `'>'` in between; both lazy `[^>]*?` pieces stay minimal, so
the group is everything from the literal to that earliest alternative. -/
def discPat2 (text : List Char) : Option (List Char) :=
  scanSuffixes (fun s =>
    if (chars "Disciplina/Unidade").isPrefixOf s then
      let r := s.drop (chars "Disciplina/Unidade").length
      match firstAnyPos identStops r with
      | some q => if '>' ∈ r.take q then none else some (r.take q)
      | none => none
    else none) text

/-- Identification-branch disciplina pattern 3,
`r'Curricular\s*([^>]*?)(?=Nota/Conceito|Frequência|Presencial|Semestral)'`:
leftmost occurrence of `Curricular`; `\s*` greedily eats the whitespace run;
the lazy no-`'>'` group runs to the earliest lookahead alternative. -/
def discPat3 (text : List Char) : Option (List Char) :=
  scanSuffixes (fun s =>
    if (chars "Curricular").isPrefixOf s then
      let r := (s.drop (chars "Curricular").length).dropWhile isPyWs
      match firstAnyPos identStops r with
      | some q => if '>' ∈ r.take q then none else some (r.take q)
      | none => none
    else none) text

/-- `re.sub(r'^\s*Curricular\s*', '', d)`: strip a leading
whitespace-`Curricular`-whitespace prefix when present. -/
def dropCurricular (s : List Char) : List Char :=
  let r := s.dropWhile isPyWs
  if (chars "Curricular").isPrefixOf r then
    (r.drop (chars "Curricular").length).dropWhile isPyWs
  else s

/-- The per-pattern cleaning of a disciplina capture in the identification
branch: `strip`, collapse whitespace, drop a leading `Curricular`, `strip`. -/
def cleanDisc (g : List Char) : List Char :=
  stripPy (dropCurricular (collapseWs (stripPy g)))

/-- The `for pattern in patterns` loop of the identification branch: each
matching pattern overwrites `disciplina` with its cleaned capture, and the
loop breaks on the first value that is non-empty and differs from `"N/A"`. -/
def pickDisc : List Char → List (Option (List Char)) → List Char
  | d, [] => d
  | d, none :: rest => pickDisc d rest
  | _, some g :: rest =>
    let d' := cleanDisc g
    if d' ≠ [] ∧ d' ≠ chars "N/A" then d' else pickDisc d' rest

/-- Final disciplina fallback `r'Disciplina:\s*([^>]*?)(?=\.|$)'` with
`re.DOTALL`: leftmost `Disciplina:` after which the lazy no-`'>'` group runs
to the first `'.'`, or to the end of the text when none occurs; a `'>'`
before that point makes the position fail. -/
def discFallback (text : List Char) : Option (List Char) :=
  scanSuffixes (fun s =>
    if (chars "Disciplina:").isPrefixOf s then
      let r := (s.drop (chars "Disciplina:").length).dropWhile isPyWs
      let q := (r.findIdx? (· = '.')).getD r.length
      if '>' ∈ r.take q then none else some (r.take q)
    else none) text

/-- `\s+(\d+)` once: at least one whitespace character, then the maximal
digit run; returns the digits and the remainder. -/
def wsNum (r : List Char) : Option (List Char × List Char) :=
  if (r.takeWhile isPyWs).isEmpty then none
  else
    let r2 := r.dropWhile isPyWs
    let ds := r2.takeWhile Char.isDigit
    if ds.isEmpty then none else some (ds, r2.dropWhile Char.isDigit)

/-- `(\s+\d+){n}` keeping the last digit group and the remainder. -/
def wsNums : Nat → List Char → Option (List Char × List Char)
  | 0, _ => none
  | 1, r => wsNum r
  | n + 2, r =>
    match wsNum r with
    | none => none
    | some (_, r') => wsNums (n + 1) r'

/-- Primary credit-hours pattern
`r'Total\s+\d+\s+\d+\s+\d+\s+\d+\s+\d+\s+\d+\s+\d+\s+(\d+)'`: `Total`
followed by eight whitespace-separated numbers, capturing the eighth. -/
def cargaPrimary (text : List Char) : Option (List Char) :=
  scanSuffixes (fun s =>
    if (chars "Total").isPrefixOf s then
      (wsNums 8 (s.drop (chars "Total").length)).map (·.1)
    else none) text

/-- Fallback `r'Total\s+(\d+)\s+AT:'`. -/
def cargaAlt1 (text : List Char) : Option (List Char) :=
  scanSuffixes (fun s =>
    if (chars "Total").isPrefixOf s then
      match wsNum (s.drop (chars "Total").length) with
      | some (ds, r') =>
        let w := r'.takeWhile isPyWs
        if w.isEmpty then none
        else if (chars "AT:").isPrefixOf (r'.dropWhile isPyWs) then some ds else none
      | none => none
    else none) text

/-- Fallback `r'Total\s*:\s*(\d+)'`. -/
def cargaAlt2 (text : List Char) : Option (List Char) :=
  scanSuffixes (fun s =>
    if (chars "Total").isPrefixOf s then
      let r := (s.drop (chars "Total").length).dropWhile isPyWs
      match r with
      | ':' :: r' =>
        let ds := (r'.dropWhile isPyWs).takeWhile Char.isDigit
        if ds.isEmpty then none else some ds
      | _ => none
    else none) text

/-- Fallback `r'Total\s+(\d+)\s*h'`. -/
def cargaAlt3 (text : List Char) : Option (List Char) :=
  scanSuffixes (fun s =>
    if (chars "Total").isPrefixOf s then
      match wsNum (s.drop (chars "Total").length) with
      | some (ds, r') =>
        match r'.dropWhile isPyWs with
        | 'h' :: _ => some ds
        | _ => none
      | none => none
    else none) text

/-- Fallback `r'Total\s+(\d+)'`. -/
def cargaAlt4 (text : List Char) : Option (List Char) :=
  scanSuffixes (fun s =>
    if (chars "Total").isPrefixOf s then
      (wsNum (s.drop (chars "Total").length)).map (·.1)
    else none) text

/-- The credit-hours cascade: the primary table-row pattern, then the four
alternative patterns in order, as in the `carga_patterns` loop. -/
def cargaRaw (text : List Char) : Option (List Char) :=
  match cargaPrimary text with
  | some ds => some ds
  | none =>
    match cargaAlt1 text with
    | some ds => some ds
    | none =>
      match cargaAlt2 text with
      | some ds => some ds
      | none =>
        match cargaAlt3 text with
        | some ds => some ds
        | none => cargaAlt4 text

/-- The prefix alternation of the identification-branch code pattern
`(CC|PP|CH|OP|MEIU)\d+[A-Z0-9]`. -/
def identPrefixes : List (List Char) :=
  [chars "CC", chars "PP", chars "CH", chars "OP", chars "MEIU"]

/-- The `codigo` field of the identification chunk. -/
def identCodigo (text : List Char) : List Char :=
  match searchCode identPrefixes true text with
  | some (m, _) => m
  | none => chars "N/A"

/-- The `disciplina` field of the identification chunk: the pattern loop
guarded by a code match, then the `Disciplina:` fallback when the result is
still `"N/A"` or empty. -/
def identDisciplina (text : List Char) : List Char :=
  let d :=
    match searchCode identPrefixes true text with
    | none => chars "N/A"
    | some (m, _) => pickDisc (chars "N/A") [discPat1 m text, discPat2 text, discPat3 text]
  if d = chars "N/A" ∨ d = [] then
    match discFallback text with
    | some g => stripPy g
    | none => d
  else d

/-- The `carga_horaria` field: the captured number with `" Horas"` appended
on success, the bare sentinel `"N/A"` on failure. -/
def identCarga (text : List Char) : List Char :=
  match cargaRaw text with
  | some ds => ds ++ chars " Horas"
  | none => chars "N/A"

/-- The synthesized identification sentence
`f"Informações da disciplina {codigo} {disciplina}. Carga Horária {carga_horaria}"`. -/
def identText (text : List Char) : List Char :=
  chars "Informações da disciplina " ++ identCodigo text ++ chars " " ++
    identDisciplina text ++ chars ". Carga Horária " ++ identCarga text

/-- The boilerplate-phrase list of the default cleaning branch (whole-line,
case-insensitive filter). -/
def boilerplate : List (List Char) :=
  [chars "ordem", chars "ementa", chars "conteúdo", chars "conteudo",
   chars "resumo da alteração", chars "#",
   chars "ministério da educação",
   chars "universidade tecnológica federal do paraná", chars "campus medianeira",
   chars "informações da disciplina", chars "por conteúdo", chars "modalidade",
   chars "código", chars "disciplina/unidade",
   chars "da oferta", chars "ofertado", chars "curricular",
   chars "modo de avaliação", chars "disciplina", chars "at", chars "ap",
   chars "aps", chars "anp", chars "apcc", chars "chead", chars "che",
   chars "total"]

/-- `re.sub(r'^\d+\s+', '', text)`: strip one leading digit run followed by a
whitespace run, when both are present at the very start. -/
def stripLeadingNumWs (s : List Char) : List Char :=
  if (s.takeWhile Char.isDigit).isEmpty then s
  else
    let r := s.dropWhile Char.isDigit
    if (r.takeWhile isPyWs).isEmpty then s else r.dropWhile isPyWs

/-- Lowercase characters of the repeated trailing heading. -/
def bcChars : List Char := chars "bibliografia complementar"

/-- Peeling loop for `re.sub(r'(Bibliografia Complementar\s*)+$', '', text,
flags=re.IGNORECASE)`, working on the reversed string: drop trailing
whitespace and a case-insensitive `Bibliografia Complementar`, repeatedly;
when no heading follows the whitespace, the string (including that
whitespace) is left as it stands. -/
def stripBCrev : Nat → List Char → List Char
  | 0, r => r
  | fuel + 1, r =>
    let r1 := r.dropWhile isPyWs
    if (r1.take bcChars.length).map pyToLower = bcChars.reverse then
      stripBCrev fuel (r1.drop bcChars.length)
    else r

/-- `re.sub(r'(Bibliografia Complementar\s*)+$', '', text, flags=re.IGNORECASE)`. -/
def stripTrailBC (s : List Char) : List Char :=
  (stripBCrev s.length s.reverse).reverse

/-- The default branch of the Chunk Cleaner: drop lines that are blank or
(case-insensitively, whole-line) boilerplate, rejoin, strip one leading
numeric-ordinal prefix, strip trailing repeated `Bibliografia Complementar`
headings, collapse whitespace and strip. -/
def defaultClean (text : List Char) : List Char :=
  let kept := (splitNl text).filter fun l =>
    !(stripPy l).isEmpty && !(boilerplate.contains (pyLower (stripPy l)))
  stripPy (collapseWs (stripTrailBC (stripLeadingNumWs (joinNl kept))))

/-- The chunk-type tag of the identification chunk. -/
def identTag : List Char := chars "identificacao"

/-- Source: `clean_chunk_text(text, chunk_type=None)`: the identification
branch synthesizes the canonical sentence; every other tag takes the default
cleaning branch. -/
def clean_chunk_text (text : List Char) (chunk_type : Option (List Char) := none) :
    List Char :=
  if chunk_type = some identTag then identText text else defaultClean text

/-- One labeled cleaned fragment with its own metadata copy. -/
structure Chunk where
  text : List Char
  tipo : List Char
  metadata : Metadata
deriving DecidableEq

/-- Split a string at its first digit, keeping the part before it and the
part starting with it (how `re.findall` advances to the next position where
`\d+` can start). -/
def splitAtFirstDigit : List Char → Option (List Char × List Char)
  | [] => none
  | c :: t =>
    if c.isDigit then some ([], c :: t)
    else (splitAtFirstDigit t).map fun p => (c :: p.1, p.2)

/-- Earliest position where the lookahead `(?=\d+\s*|Bibliografia|$)` of the
topic-splitting pattern succeeds: a digit, the heading, or the end. -/
def topicoStop : List Char → Nat
  | [] => 0
  | c :: t =>
    if c.isDigit ∨ (chars "Bibliografia").isPrefixOf (c :: t) then 0
    else topicoStop t + 1

/-- Source: `re.findall(r'(\d+\s*.*?(?=\d+\s*|Bibliografia|$))', conteudo,
re.DOTALL)`: each successive non-overlapping match starts at the next digit,
takes the maximal digit run, the following whitespace run, and then the lazy
remainder up to the earliest following digit, `Bibliografia` heading, or end
of text; the next search resumes at the match end.  Fuel is the length of
the text (every match consumes at least one character). -/
def findTopicos : Nat → List Char → List (List Char)
  | 0, _ => []
  | fuel + 1, s =>
    match splitAtFirstDigit s with
    | none => []
    | some (_, s1) =>
      let ds := s1.takeWhile Char.isDigit
      let s2 := s1.dropWhile Char.isDigit
      let w := s2.takeWhile isPyWs
      let s3 := s2.dropWhile isPyWs
      let q := topicoStop s3
      (ds ++ w ++ s3.take q) :: findTopicos fuel (s3.drop q)

/-- Python `str.split()[0]`: first whitespace-separated token. -/
def pySplitHead (s : List Char) : List Char :=
  (s.dropWhile isPyWs).takeWhile (fun c => !isPyWs c)

/-- CPython `os.path.splitext(filename)[0]` for a bare filename: cut at the
last dot unless every character before it is a dot (or it is the first
character). -/
def splitextStem (f : List Char) : List Char :=
  match (f.reverse.findIdx? (· = '.')).map (fun r => f.length - 1 - r) with
  | none => f
  | some p => if 0 < p ∧ (f.take p).any (· ≠ '.') then f.take p else f

/-- The assembler-side disciplina backfill pattern
`f"{codigo}(.*?)(?=Frequência|Presencial|Nota|$)"` with `re.DOTALL`
(`codigo` interpreted literally): always matches at the first occurrence of
the code, the lazy group running to the earliest terminator keyword or end. -/
def discPatAssembler (codigo text : List Char) : Option (List Char) :=
  scanSuffixes (fun s =>
    if codigo.isPrefixOf s then
      some (takeUntilAnyOrEnd [chars "Frequência", chars "Presencial", chars "Nota"]
        (s.drop codigo.length))
    else none) text

/-- The assembler-side label-anchored disciplina pattern
`r'(?:Disciplina|Unidade Curricular)[:\s]+(.*?)(?=Frequência|Presencial|Nota|$)'`
with `re.DOTALL`: leftmost occurrence of either label followed by at least
one colon-or-whitespace character; the greedy `[:\s]+` eats the whole run
and the lazy group runs to the earliest terminator keyword or end. -/
def discLabelSearch (text : List Char) : Option (List Char) :=
  scanSuffixes (fun s =>
    let tryLit := fun (lit : List Char) =>
      if lit.isPrefixOf s then
        let r := s.drop lit.length
        if (r.takeWhile (fun c => c = ':' || isPyWs c)).isEmpty then none
        else
          some (takeUntilAnyOrEnd [chars "Frequência", chars "Presencial", chars "Nota"]
            (r.dropWhile (fun c => c = ':' || isPyWs c)))
      else none
    match tryLit (chars "Disciplina") with
    | some g => some g
    | none => tryLit (chars "Unidade Curricular")) text

/-- The metadata-derivation prefix of `process_pdf_content`: header
extraction, filename-stem fallback for `codigo`, and the three-stage
backfill of `disciplina`. -/
def assembler_metadata (text filename : List Char) : Metadata :=
  let md0 := extract_metadata_from_header text
  let md1 :=
    if optFalsy md0.codigo then { md0 with codigo := some (splitextStem filename) }
    else md0
  let codigo := md1.codigo.getD []
  if optFalsy md1.disciplina then
    match discPatAssembler codigo text with
    | some g => { md1 with disciplina := some (stripPy g) }
    | none =>
      match discLabelSearch text with
      | some g => { md1 with disciplina := some (stripPy g) }
      | none => { md1 with disciplina := some (chars "Disciplina " ++ codigo) }
  else md1

/-- The section chunks that follow the identification chunk in
`process_pdf_content`: objective, summary, syllabus topics, and the two
bibliography chunks, each emitted only when its extracted section is
non-empty, each with its own copy of the document metadata. -/
def assembler_tail (text : List Char) (md : Metadata) : List Chunk :=
  let objetivo := extract_section_from_pdf text (chars "Objetivo") (some (chars "Ementa"))
  let l1 : List Chunk :=
    if objetivo = [] then []
    else [{ text := clean_chunk_text objetivo, tipo := chars "objetivo", metadata := md }]
  let ementa := extract_section_from_pdf text (chars "Ementa")
    (some (chars "Conteúdo Programático"))
  let l2 : List Chunk :=
    if ementa = [] then []
    else [{ text := clean_chunk_text ementa, tipo := chars "ementa", metadata := md }]
  let conteudo := extract_section_from_pdf text (chars "Conteúdo Programático")
    (some (chars "Bibliografia"))
  let l3 : List Chunk :=
    if conteudo = [] then []
    else
      (findTopicos conteudo.length conteudo).map fun tp =>
        { text := clean_chunk_text (stripPy tp), tipo := chars "conteudo_programatico"
          metadata := { md with secao := some (chars "Tópico " ++ pySplitHead tp) } }
  let bb := extract_section_from_pdf text (chars "Bibliografia Básica")
    (some (chars "Bibliografia Complementar"))
  let l4 : List Chunk :=
    if bb = [] then []
    else [{ text := clean_chunk_text bb, tipo := chars "bibliografia_basica", metadata := md }]
  let bc := extract_section_from_pdf text (chars "Bibliografia Complementar")
    (some (chars "Resumo"))
  let l5 : List Chunk :=
    if bc = [] then []
    else [{ text := clean_chunk_text bc, tipo := chars "bibliografia_complementar"
            metadata := md }]
  l1 ++ l2 ++ l3 ++ l4 ++ l5

/-- Source: `process_pdf_content(text, filename)`: derive the document
metadata, then emit the identification chunk (from the first 500 characters,
cleaned by the identification branch) followed by the section chunks. -/
def process_pdf_content (text filename : List Char) : Metadata × List Chunk :=
  let md := assembler_metadata text filename
  (md,
    { text := clean_chunk_text (text.take 500) (some identTag), tipo := identTag
      metadata := md } :: assembler_tail text md)

/-- Decimal digits of a natural number (Python `str(i)` inside the id
f-string), with fuel for kernel-reducible recursion. -/
def natDigitsAux : Nat → Nat → List Char
  | 0, _ => []
  | fuel + 1, n =>
    if n < 10 then [Char.ofNat (48 + n)]
    else natDigitsAux fuel (n / 10) ++ [Char.ofNat (48 + n % 10)]

/-- Decimal representation of a chunk index. -/
def natDigits (n : Nat) : List Char := natDigitsAux (n + 1) n

/-- The storage identifier `f"{codigo}_{tipo}_{i}_{model_name}"`. -/
def mkChunkId (codigo tipo : List Char) (i : Nat) (model : List Char) : List Char :=
  codigo ++ '_' :: tipo ++ '_' :: natDigits i ++ '_' :: model

/-- One record as inserted into a collection by `collection.add`: the id, the
document text, and the merged metadata
`{**chunk['metadata'], 'source': source, 'tipo': chunk['tipo'], 'codigo': codigo}`
(the merge overrides the chunk's own `codigo` and adds `source`/`tipo`). -/
structure StoredRecord where
  id : List Char
  document : List Char
  m_source : List Char
  m_tipo : List Char
  m_codigo : List Char
  m_disciplina : Option (List Char)
  m_modalidade : List Char
  m_oferta : List Char
  m_secao : Option (List Char)
deriving DecidableEq

/-- The record built for chunk `c` at (whole-list, zero-based) index `i`
under model `model`, with the driver-supplied `codigo` and `source`. -/
def recordEntry (codigo source : List Char) (i : Nat) (c : Chunk)
    (model : List Char) : StoredRecord :=
  { id := mkChunkId codigo c.tipo i model
    document := c.text
    m_source := source
    m_tipo := c.tipo
    m_codigo := codigo
    m_disciplina := c.metadata.disciplina
    m_modalidade := c.metadata.modalidade
    m_oferta := c.metadata.oferta
    m_secao := c.metadata.secao }

/-- The inner `for i, chunk in enumerate(chunks)` insertion loop for one
model, starting at index `i`. -/
def recordsForChunks (codigo source model : List Char) :
    Nat → List Chunk → List StoredRecord
  | _, [] => []
  | i, c :: cs =>
    recordEntry codigo source i c model :: recordsForChunks codigo source model (i + 1) cs

/-- The records inserted for one document across all model collections (the
nested `for (model_name, …), collection in zip(models, collections)` /
`for i, chunk in enumerate(chunks)` loops). -/
def recordsFor (codigo source : List Char) (chunks : List Chunk)
    (models : List (List Char)) : List StoredRecord :=
  (models.map fun m => recordsForChunks codigo source m 0 chunks).flatten

/-- Source: the insertion behaviour of
`process_pdf_and_add_to_collections(pdf_path, models, collections)` on a
document whose text extraction succeeded: it overwrites the document
metadata's `source` with the basename and `codigo` with the filename stem,
and inserts every (chunk, model) record keyed by that stem-derived code.
Modelled as the pure list of records it inserts. -/
def process_pdf_and_add_to_collections (source text : List Char)
    (models : List (List Char)) : List StoredRecord :=
  let mc := process_pdf_content text source
  recordsFor (splitextStem source) source mc.2 models

/-- Source: the per-document insertion behaviour of the
`for pdf_file in pdf_files` loop body of `process_all_pdfs_in_directory`
(lines 440-483) on a document whose text extraction succeeded: here
`codigo = metadata['codigo']` is the Assembler-derived code and no
document-level `source`/`codigo` overwrite happens; each record's metadata
still receives `source` and that Assembler `codigo` through the per-record
merge.  Modelled as the pure list of records it inserts. -/
def directory_driver_records (source text : List Char)
    (models : List (List Char)) : List StoredRecord :=
  let mc := process_pdf_content text source
  recordsFor (mc.1.codigo.getD []) source mc.2 models

/-- Python `os.path.basename`: the part after the last `/`. -/
def pyBasename (p : List Char) : List Char :=
  match p.reverse.findIdx? (· = '/') with
  | none => p
  | some r => p.drop (p.length - r)

/-- The insertion loop of the directory driver for one model over the chunk
list, threading the store: for each chunk, the embedding collaborator and
then the insert collaborator run; the first failure stops this document's
processing, keeping everything inserted so far (no rollback). -/
def insertChunks (encode : List Char → List Char → Except E Unit)
    (ins : StoredRecord → Except E Unit)
    (codigo source model : List Char) :
    Nat → List Chunk → List StoredRecord → List StoredRecord × Option E
  | _, [], st => (st, none)
  | i, c :: cs, st =>
    match encode model c.text with
    | .error e => (st, some e)
    | .ok _ =>
      let r := recordEntry codigo source i c model
      match ins r with
      | .error e => (st, some e)
      | .ok _ => insertChunks encode ins codigo source model (i + 1) cs (st ++ [r])

/-- The per-model loop of the directory driver for one document. -/
def insertModels (encode : List Char → List Char → Except E Unit)
    (ins : StoredRecord → Except E Unit) (codigo source : List Char)
    (chunks : List Chunk) :
    List (List Char) → List StoredRecord → List StoredRecord × Option E
  | [], st => (st, none)
  | m :: ms, st =>
    match insertChunks encode ins codigo source m 0 chunks st with
    | (st', some e) => (st', some e)
    | (st', none) => insertModels encode ins codigo source chunks ms st'

/-- The `try:` body of the directory driver's per-document loop: extract the
text (a falsy result skips the document without an error), assemble the
chunks, and insert every (model, chunk) record; the result carries the
partially grown store and the first collaborator failure, if any — the
shallow embedding of an uncaught exception escaping the body. -/
def processDocBody (extract : List Char → Option (List Char))
    (encode : List Char → List Char → Except E Unit)
    (ins : StoredRecord → Except E Unit) (models : List (List Char))
    (file : List Char) (st : List StoredRecord) : List StoredRecord × Option E :=
  match extract file with
  | none => (st, none)
  | some text =>
    if text = [] then (st, none)
    else
      let source := pyBasename file
      let mc := process_pdf_content text source
      insertModels encode ins (mc.1.codigo.getD []) source mc.2 models st

/-- Source: `process_all_pdfs_in_directory(pdf_dir, models, collections)`,
per-document control flow: each file is processed inside `try:`; an
exception is caught by the `except` clause, which logs the file and the
error and `continue`s with the next file.  Returns the final store and the
log of (file, error) pairs. -/
def process_all_pdfs_in_directory (extract : List Char → Option (List Char))
    (encode : List Char → List Char → Except E Unit)
    (ins : StoredRecord → Except E Unit) (models : List (List Char)) :
    List (List Char) → List StoredRecord → List StoredRecord × List (List Char × E)
  | [], st => (st, [])
  | f :: fs, st =>
    let r := processDocBody extract encode ins models f st
    let rest := process_all_pdfs_in_directory extract encode ins models fs r.1
    (rest.1,
      (match r.2 with
       | some e => [(f, e)]
       | none => []) ++ rest.2)

/-- The identification-sentence template exactly as the specification words
it: code, name and hours substituted into
`Informações da disciplina (code) (name). Carga Horária (hours) Horas`,
with the trailing `Horas` part of the fixed template. -/
def specIdentTemplate (code name hours : List Char) : List Char :=
  chars "Informações da disciplina " ++ code ++ chars " " ++ name ++
    chars ". Carga Horária " ++ hours ++ chars " Horas"

/-- The course-code pattern as the specification words it for the Metadata
Extractor: an uppercase prefix from the fixed set, immediately followed by
digits and an optional trailing uppercase letter. -/
def specCourseCodeShape (s : List Char) : Bool :=
  ((chars "CC").isPrefixOf s || (chars "PP").isPrefixOf s) &&
    (let r := s.drop 2
     let ds := r.takeWhile Char.isDigit
     !ds.isEmpty &&
       (match r.dropWhile Char.isDigit with
        | [] => true
        | [c] => isUpperAZ c
        | _ => false))

/-- C7: for every text and every marker pair (end marker present or not),
the Section Splitter returns the empty string when the start marker does not
occur in the text; being a total function it cannot fail. -/
theorem extract_section_empty_of_absent_start (text s : List Char)
    (e? : Option (List Char)) (h : findSub s text = none) :
    extract_section_from_pdf text s e? = [] := by
  unfold extract_section_from_pdf
  rw [h]

/-- Witness for C7: a concrete text without the start marker, for both
shapes of the end-marker argument. -/
theorem extract_section_empty_of_absent_start_witness :
    findSub (chars "Objetivo") (chars "abc def") = none ∧
    extract_section_from_pdf (chars "abc def") (chars "Objetivo")
      (some (chars "Ementa")) = [] ∧
    extract_section_from_pdf (chars "abc def") (chars "Objetivo") none = [] :=
  ⟨by decide,
   extract_section_empty_of_absent_start _ _ _ (by decide),
   extract_section_empty_of_absent_start _ _ _ (by decide)⟩

/-- C10: when an explicit end marker is supplied and the text contains the
start marker but the end marker does not occur after it, the Section
Splitter returns the empty string; the fallback terminators of the
no-end-marker pattern play no role. -/
theorem extract_section_empty_of_absent_end (text s e : List Char) (i : Nat)
    (hs : findSub s text = some i)
    (he : findSub e (text.drop (i + s.length)) = none) :
    extract_section_from_pdf text s (some e) = [] := by
  unfold extract_section_from_pdf
  rw [hs]
  simp only
  rw [he]

/-- Witness for C10: the start marker is present, the end marker absent, and
a fallback terminator (`Bibliografia`) present after the start marker — the
result is still empty. -/
theorem extract_section_empty_of_absent_end_witness :
    findSub (chars "Objetivo") (chars "Objetivo abc Bibliografia") = some 0 ∧
    findSub (chars "Ementa")
      ((chars "Objetivo abc Bibliografia").drop (0 + (chars "Objetivo").length)) = none ∧
    extract_section_from_pdf (chars "Objetivo abc Bibliografia") (chars "Objetivo")
      (some (chars "Ementa")) = [] :=
  ⟨by decide, by decide,
   extract_section_empty_of_absent_end _ _ _ 0 (by decide) (by decide)⟩


/-- Membership in a conditionally emitted list: the guard is false and the
element is in the else-branch list. -/
theorem mem_ite_nil {α : Type} {p : Prop} [Decidable p] {l : List α} {c : α}
    (hc : c ∈ (if p then ([] : List α) else l)) : ¬ p ∧ c ∈ l := by
  split at hc
  · simp at hc
  · exact ⟨by assumption, hc⟩

/-- A digit character is not Python whitespace. -/
theorem not_ws_of_digit (c : Char) (h : c.isDigit = true) : isPyWs c = false := by
  unfold isPyWs
  by_contra hw
  simp only [Bool.not_eq_false, Bool.or_eq_true, decide_eq_true_eq] at hw
  rcases hw with ((((h1 | h1) | h1) | h1) | h1) | h1 <;> subst h1 <;>
    exact absurd h (by decide)

/-- A string containing a non-whitespace character does not strip to empty. -/
theorem stripPy_ne_nil (s : List Char) (c : Char) (hm : c ∈ s)
    (hw : isPyWs c = false) : stripPy s ≠ [] := by
  intro hstrip
  have h1 : (s.dropWhile isPyWs).reverse.dropWhile isPyWs = [] :=
    List.reverse_eq_nil_iff.mp hstrip
  have h2 : ∀ a ∈ (s.dropWhile isPyWs).reverse, isPyWs a = true :=
    List.dropWhile_eq_nil_iff.mp h1
  have h3 : ∀ a ∈ s.dropWhile isPyWs, isPyWs a = true := fun a ha =>
    h2 a (List.mem_reverse.mpr ha)
  have h4 : ∀ a ∈ s, isPyWs a = true := by
    intro a ha
    rw [← List.takeWhile_append_dropWhile (p := isPyWs) (l := s)] at ha
    rcases List.mem_append.mp ha with ha | ha
    · exact List.mem_takeWhile_imp ha
    · exact h3 a ha
  rw [h4 c hm] at hw
  exact absurd hw (by decide)

/-- `splitAtFirstDigit` returns a second component starting with a digit. -/
theorem splitAtFirstDigit_some :
    ∀ (s a b : List Char), splitAtFirstDigit s = some (a, b) →
      ∃ c, b.head? = some c ∧ c.isDigit = true := by
  intro s
  induction s with
  | nil => intro a b h; simp [splitAtFirstDigit] at h
  | cons c cs ih =>
    intro a b h
    unfold splitAtFirstDigit at h
    split at h
    · rename_i hd
      simp only [Option.some_inj, Prod.mk.injEq] at h
      exact ⟨c, by simp [← h.2], hd⟩
    · rcases ho : splitAtFirstDigit cs with _ | ⟨p1, p2⟩
      · rw [ho] at h; simp at h
      · rw [ho] at h
        simp only [Option.map_some', Option.some_inj, Prod.mk.injEq] at h
        exact ih p1 b (by rw [ho, h.2])

/-- Every fragment produced by the topic splitter starts with a digit. -/
theorem findTopicos_head_digit :
    ∀ (fuel : Nat) (s tp : List Char), tp ∈ findTopicos fuel s →
      ∃ c, tp.head? = some c ∧ c.isDigit = true := by
  intro fuel
  induction fuel with
  | zero => intro s tp h; exact absurd h (List.not_mem_nil _)
  | succ fuel ih =>
    intro s tp h
    unfold findTopicos at h
    rcases ho : splitAtFirstDigit s with _ | ⟨a, b⟩
    · rw [ho] at h; simp at h
    · rw [ho] at h
      simp only [List.mem_cons] at h
      rcases h with rfl | h
      · obtain ⟨c, hh, hd⟩ := splitAtFirstDigit_some s a b ho
        rcases b with _ | ⟨x, xs⟩
        · simp at hh
        · have hx : x = c := by simpa using hh
          have hdx : x.isDigit = true := by rw [hx]; exact hd
          refine ⟨c, ?_, hd⟩
          rw [List.takeWhile_cons_of_pos (by simpa using hdx)]
          simp [hx]
      · exact ih _ _ h

/-- If a list has head `c` then `c` is a member. -/
theorem mem_of_headq {α : Type} {l : List α} {c : α} (h : l.head? = some c) : c ∈ l := by
  cases l with
  | nil => simp at h
  | cons x xs =>
    simp only [List.head?_cons, Option.some_inj] at h
    subst h
    exact List.mem_cons_self _ _

/-- Every chunk of the assembler's tail carries a text obtained by
default-cleaning a non-empty fragment, and a section tag from the fixed
non-identification set. -/
theorem assembler_tail_mem (text : List Char) (md : Metadata) (c : Chunk)
    (hc : c ∈ assembler_tail text md) :
    (∃ s, s ≠ [] ∧ c.text = clean_chunk_text s none) ∧
    (c.tipo = chars "objetivo" ∨ c.tipo = chars "ementa" ∨
     c.tipo = chars "conteudo_programatico" ∨ c.tipo = chars "bibliografia_basica" ∨
     c.tipo = chars "bibliografia_complementar") := by
  unfold assembler_tail at hc
  simp only [List.mem_append] at hc
  rcases hc with (((hc | hc) | hc) | hc) | hc
  · obtain ⟨h, hc⟩ := mem_ite_nil hc
    simp only [List.mem_singleton] at hc
    subst hc
    exact ⟨⟨_, h, rfl⟩, Or.inl rfl⟩
  · obtain ⟨h, hc⟩ := mem_ite_nil hc
    simp only [List.mem_singleton] at hc
    subst hc
    exact ⟨⟨_, h, rfl⟩, Or.inr (Or.inl rfl)⟩
  · obtain ⟨h, hc⟩ := mem_ite_nil hc
    obtain ⟨tp, htp, rfl⟩ := List.mem_map.mp hc
    obtain ⟨d, hh, hd⟩ := findTopicos_head_digit _ _ _ htp
    refine ⟨⟨stripPy tp, ?_, rfl⟩, Or.inr (Or.inr (Or.inl rfl))⟩
    exact stripPy_ne_nil _ d (mem_of_headq hh) (not_ws_of_digit _ hd)
  · obtain ⟨h, hc⟩ := mem_ite_nil hc
    simp only [List.mem_singleton] at hc
    subst hc
    exact ⟨⟨_, h, rfl⟩, Or.inr (Or.inr (Or.inr (Or.inl rfl)))⟩
  · obtain ⟨h, hc⟩ := mem_ite_nil hc
    simp only [List.mem_singleton] at hc
    subst hc
    exact ⟨⟨_, h, rfl⟩, Or.inr (Or.inr (Or.inr (Or.inr rfl)))⟩

/-- C1 (counterexample): on the raw text `"Objetivo\nat\nEmenta"` the Chunk
Assembler emits a second chunk with `tipo = "objetivo"` and an empty `text`:
the extracted objective section `"at"` is non-empty (so the emission gate
passes) but consists of a single boilerplate line, which the default
cleaning branch deletes entirely. -/
theorem assembler_emits_empty_text_chunk :
    extract_section_from_pdf (chars "Objetivo\nat\nEmenta") (chars "Objetivo")
      (some (chars "Ementa")) = chars "at" ∧
    ((process_pdf_content (chars "Objetivo\nat\nEmenta") (chars "X.pdf")).2.map
      (fun c => (c.tipo, c.text))).drop 1 = [(chars "objetivo", [])] ∧
    chars "objetivo" ≠ identTag := by
  decide

/-- C1 (amended): every chunk of the Chunk Assembler whose `tipo` is not
`identificacao` has `text` equal to the default cleaning of some non-empty
extracted fragment — the emission gate checks the raw extracted section, not
the cleaned text, so the cleaned `text` itself may still be empty. -/
theorem assembler_nonident_text_from_nonempty_section (text filename : List Char)
    (c : Chunk) (hc : c ∈ (process_pdf_content text filename).2)
    (ht : c.tipo ≠ identTag) :
    ∃ s, s ≠ [] ∧ c.text = clean_chunk_text s none := by
  unfold process_pdf_content at hc
  simp only [List.mem_cons] at hc
  rcases hc with rfl | hc
  · exact absurd rfl ht
  · exact (assembler_tail_mem _ _ c hc).1

/-- Witness for the amended C1 at a concrete document whose objective chunk
survives cleaning. -/
theorem assembler_nonident_text_from_nonempty_section_witness :
    (((process_pdf_content (chars "Objetivo x Ementa") (chars "f.pdf")).2.drop 1).headD
        { text := [], tipo := [], metadata := {} } ∈
      (process_pdf_content (chars "Objetivo x Ementa") (chars "f.pdf")).2) ∧
    (((process_pdf_content (chars "Objetivo x Ementa") (chars "f.pdf")).2.drop 1).headD
        { text := [], tipo := [], metadata := {} }).tipo ≠ identTag ∧
    ∃ s, s ≠ [] ∧
      (((process_pdf_content (chars "Objetivo x Ementa") (chars "f.pdf")).2.drop 1).headD
          { text := [], tipo := [], metadata := {} }).text = clean_chunk_text s none :=
  ⟨by decide, by decide,
   assembler_nonident_text_from_nonempty_section (chars "Objetivo x Ementa")
     (chars "f.pdf") _ (by decide) (by decide)⟩

/-- C4 (counterexample): on the empty fragment all three pattern heuristics
fail, and the identification branch returns
`"Informações da disciplina N/A N/A. Carga Horária N/A"` — not the claimed
fixed template instantiated with the three sentinels, which would end in
`"N/A Horas"`: the `" Horas"` suffix is produced only on a successful hours
match. -/
theorem clean_ident_not_spec_template :
    clean_chunk_text [] (some identTag) =
      chars "Informações da disciplina N/A N/A. Carga Horária N/A" ∧
    identCodigo [] = chars "N/A" ∧
    identDisciplina [] = chars "N/A" ∧
    cargaRaw [] = none ∧
    clean_chunk_text [] (some identTag) ≠
      specIdentTemplate (chars "N/A") (chars "N/A") (chars "N/A") := by
  decide

/-- C4 (amended): the identification branch returns exactly
`"Informações da disciplina (codigo) (disciplina). Carga Horária (carga)"`
where the three fields are the pattern-heuristic derivations; `codigo` and
`disciplina` default to the sentinel `"N/A"` when their derivations fail,
while the hours field substitutes `"(hours) Horas"` on success and the bare
sentinel `"N/A"` (without the `Horas` suffix) on failure. -/
theorem clean_ident_template (t : List Char) :
    clean_chunk_text t (some identTag) =
      chars "Informações da disciplina " ++ identCodigo t ++ chars " " ++
        identDisciplina t ++ chars ". Carga Horária " ++ identCarga t ∧
    (searchCode identPrefixes true t = none → identCodigo t = chars "N/A") ∧
    (cargaRaw t = none → identCarga t = chars "N/A") ∧
    (∀ ds, cargaRaw t = some ds → identCarga t = ds ++ chars " Horas") ∧
    (searchCode identPrefixes true t = none → discFallback t = none →
      identDisciplina t = chars "N/A") := by
  refine ⟨by simp [clean_chunk_text, identText], ?_, ?_, ?_, ?_⟩
  · intro h
    unfold identCodigo
    rw [h]
  · intro h
    unfold identCarga
    rw [h]
  · intro ds h
    unfold identCarga
    rw [h]
  · intro h hf
    unfold identDisciplina
    rw [h, hf]
    simp

/-- Witness for the amended C4: a fragment where the code and name
derivations fail but the hours cascade succeeds. -/
theorem clean_ident_template_witness :
    clean_chunk_text (chars "Total 7h") (some identTag) =
      chars "Informações da disciplina " ++ identCodigo (chars "Total 7h") ++
        chars " " ++ identDisciplina (chars "Total 7h") ++
        chars ". Carga Horária " ++ identCarga (chars "Total 7h") ∧
    searchCode identPrefixes true (chars "Total 7h") = none ∧
    identCodigo (chars "Total 7h") = chars "N/A" ∧
    cargaRaw (chars "Total 7h") = some (chars "7") ∧
    identCarga (chars "Total 7h") = chars "7" ++ chars " Horas" ∧
    discFallback (chars "Total 7h") = none ∧
    identDisciplina (chars "Total 7h") = chars "N/A" :=
  ⟨(clean_ident_template _).1, by decide,
   (clean_ident_template _).2.1 (by decide), by decide,
   (clean_ident_template _).2.2.2.1 _ (by decide), by decide,
   (clean_ident_template _).2.2.2.2 (by decide) (by decide)⟩

/-- Definitional shape of the assembler's chunk list: the identification
chunk followed by the section chunks. -/
theorem process_pdf_content_eq (text filename : List Char) :
    (process_pdf_content text filename).2 =
      { text := clean_chunk_text (text.take 500) (some identTag), tipo := identTag
        metadata := assembler_metadata text filename } ::
        assembler_tail text (assembler_metadata text filename) := rfl

/-- C5: for every raw text and filename the Chunk Assembler emits exactly
one chunk with `tipo = identificacao`; it sits at index 0 and its text is
the identification-branch cleaning of the first 500 characters of the raw
text; it is emitted whether or not any other section is found. -/
theorem assembler_identification_chunk (text filename : List Char) :
    ((process_pdf_content text filename).2.filter
        (fun c => decide (c.tipo = identTag))).length = 1 ∧
    (process_pdf_content text filename).2.head?.map Chunk.tipo = some identTag ∧
    (process_pdf_content text filename).2.head?.map Chunk.text =
      some (clean_chunk_text (text.take 500) (some identTag)) := by
  have htail : ∀ c ∈ assembler_tail text (assembler_metadata text filename),
      (fun c => decide (c.tipo = identTag)) c = false := by
    intro c hc
    show decide (c.tipo = identTag) = false
    rcases (assembler_tail_mem _ _ c hc).2 with h | h | h | h | h <;> rw [h] <;> decide
  refine ⟨?_, ?_, ?_⟩
  · rw [process_pdf_content_eq]
    rw [List.filter_cons_of_pos (by rfl)]
    rw [List.filter_eq_nil_iff.mpr (by simpa using htail)]
    rfl
  · rw [process_pdf_content_eq]
    rfl
  · rw [process_pdf_content_eq]
    rfl

/-- A successful leftmost scan happens at some split of the text. -/
theorem scanSuffixes_some {α : Type} (f : List Char → Option α) :
    ∀ (t : List Char) (a : α), scanSuffixes f t = some a →
      ∃ pre suf, t = pre ++ suf ∧ f suf = some a := by
  intro t
  induction t with
  | nil => intro a h; exact ⟨[], [], rfl, h⟩
  | cons c cs ih =>
    intro a h
    unfold scanSuffixes at h
    rcases hm : f (c :: cs) with _ | b
    · rw [hm] at h
      obtain ⟨pre, suf, heq, hf⟩ := ih a h
      exact ⟨c :: pre, suf, by rw [List.cons_append, ← heq], hf⟩
    · rw [hm] at h
      cases h
      exact ⟨[], c :: cs, rfl, hm⟩

/-- A successful position match of the `(CC|PP)\d+[A-Z]` pattern decomposes
the suffix as prefix + digits + uppercase letter, followed by the rest. -/
theorem matchCodeHere_sound (prefixes : List (List Char)) (s m rest : List Char)
    (h : matchCodeHere prefixes false s = some (m, rest)) :
    s = m ++ rest ∧
    ∃ p ds c, p ∈ prefixes ∧ m = p ++ ds ++ [c] ∧ ds ≠ [] ∧
      (∀ d ∈ ds, d.isDigit = true) ∧ isUpperAZ c = true := by
  obtain ⟨p, hp, hf⟩ := List.exists_of_findSome?_eq_some h
  dsimp only at hf
  split at hf
  · rename_i hpre
    split at hf
    · exact absurd hf (by simp)
    · rename_i hds
      split at hf
      · rename_i c r hdrop
        split at hf
        · rename_i hup
          simp only [Option.some_inj, Prod.mk.injEq] at hf
          obtain ⟨hm, hr⟩ := hf
          have hsplit : List.drop p.length s =
              (List.drop p.length s).takeWhile Char.isDigit ++ (c :: r) := by
            rw [← hdrop, List.takeWhile_append_dropWhile]
          have hs : s = p ++ List.drop p.length s := by
            have h1 : p <+: s := List.isPrefixOf_iff_prefix.mp hpre
            exact (List.prefix_iff_eq_append.mp h1).symm
          refine ⟨?_, p, (List.drop p.length s).takeWhile Char.isDigit, c, hp,
            hm.symm, ?_, ?_, hup⟩
          · rw [← hm, ← hr]
            conv_lhs => rw [hs, hsplit]
            simp [List.append_assoc]
          · intro hnil
            rw [hnil] at hds
            simp at hds
          · intro d hd
            exact List.mem_takeWhile_imp hd
        · exact absurd hf (by simp)
      · exact absurd hf (by simp)
  · exact absurd hf (by simp)

/-- C8 (counterexample): `"CC12"` fits the claimed pattern shape (prefix
from the fixed set, digits, *optional* trailing letter) and occurs in
`"CC12\nMath"`, yet the Metadata Extractor's regex `(CC|PP)\d+[A-Z]`
requires a mandatory trailing uppercase letter, finds no match, and leaves
`codigo` (and `disciplina`) unset instead of the claimed matched substring. -/
theorem extract_metadata_optional_letter_counterexample :
    specCourseCodeShape (chars "CC12") = true ∧
    containsSub (chars "CC12\nMath") (chars "CC12") = true ∧
    (extract_metadata_from_header (chars "CC12\nMath")).codigo = none ∧
    (extract_metadata_from_header (chars "CC12\nMath")).disciplina = none := by
  decide

/-- C8 (amended): whenever the Metadata Extractor's course-code search
succeeds, the matched substring is an occurrence in the text of prefix `CC`
or `PP` followed by at least one digit and a mandatory trailing uppercase
letter; `codigo` is set to exactly that matched substring and `disciplina`
to the text from immediately after the match up to the next newline,
stripped. -/
theorem extract_metadata_codigo_exact (text m rest : List Char)
    (h : searchCode [chars "CC", chars "PP"] false text = some (m, rest)) :
    (∃ pre, text = pre ++ m ++ rest) ∧
    (extract_metadata_from_header text).codigo = some m ∧
    (extract_metadata_from_header text).disciplina =
      some (stripPy (rest.takeWhile (· ≠ '\n'))) ∧
    ∃ p ds c, (p = chars "CC" ∨ p = chars "PP") ∧ m = p ++ ds ++ [c] ∧ ds ≠ [] ∧
      (∀ d ∈ ds, d.isDigit = true) ∧ isUpperAZ c = true := by
  obtain ⟨pre, suf, heq, hf⟩ := scanSuffixes_some _ text (m, rest) h
  obtain ⟨hsuf, p, ds, c, hp, hshape⟩ := matchCodeHere_sound _ _ _ _ hf
  refine ⟨⟨pre, by rw [heq, hsuf, List.append_assoc]⟩, ?_, ?_, ?_⟩
  · unfold extract_metadata_from_header
    rw [h]
    rfl
  · unfold extract_metadata_from_header
    rw [h]
    rfl
  · refine ⟨p, ds, c, ?_, hshape⟩
    simpa using hp

/-- Witness for the amended C8 at a text containing `CC12A`. -/
theorem extract_metadata_codigo_exact_witness :
    searchCode [chars "CC", chars "PP"] false (chars "xCC12A\nFoo") =
      some (chars "CC12A", chars "\nFoo") ∧
    ((∃ pre, chars "xCC12A\nFoo" = pre ++ chars "CC12A" ++ chars "\nFoo") ∧
      (extract_metadata_from_header (chars "xCC12A\nFoo")).codigo =
        some (chars "CC12A") ∧
      (extract_metadata_from_header (chars "xCC12A\nFoo")).disciplina =
        some (stripPy ((chars "\nFoo").takeWhile (· ≠ '\n'))) ∧
      ∃ p ds c, (p = chars "CC" ∨ p = chars "PP") ∧
        chars "CC12A" = p ++ ds ++ [c] ∧ ds ≠ [] ∧
        (∀ d ∈ ds, d.isDigit = true) ∧ isUpperAZ c = true) :=
  ⟨by decide, extract_metadata_codigo_exact (chars "xCC12A\nFoo") _ _ (by decide)⟩

/-- `stripPy` is front-drop followed by Mathlib's right-drop. -/
theorem stripPy_eq_rdrop (s : List Char) :
    stripPy s = List.rdropWhile isPyWs (s.dropWhile isPyWs) := rfl

/-- The first character surviving a front whitespace-drop is not dropped
again. -/
theorem dropWhile_fix_of_front (s r : List Char)
    (hpre : r <+: s.dropWhile isPyWs) :
    r.dropWhile isPyWs = r := by
  obtain ⟨u, hu⟩ := hpre
  cases r with
  | nil => rfl
  | cons a t =>
    have hDW : (s.dropWhile isPyWs).dropWhile isPyWs = s.dropWhile isPyWs :=
      List.dropWhile_idempotent _ _
    have hm : s.dropWhile isPyWs = a :: (t ++ u) := by
      rw [← hu]
      simp
    have hma : isPyWs a = false := by
      by_contra hws
      simp only [Bool.not_eq_false] at hws
      rw [hm, List.dropWhile_cons, if_pos (by simp [hws])] at hDW
      have hlen := (List.dropWhile_suffix (l := t ++ u) isPyWs).sublist.length_le
      rw [hDW] at hlen
      simp at hlen
    rw [List.dropWhile_cons, if_neg (by simp [hma])]

/-- Python `strip` is idempotent. -/
theorem stripPy_idem (s : List Char) : stripPy (stripPy s) = stripPy s := by
  rw [stripPy_eq_rdrop, stripPy_eq_rdrop]
  rw [dropWhile_fix_of_front s _ ( List.rdropWhile_prefix _ _)]
  exact List.rdropWhile_idempotent _ _

/-- The head of the collapsed form of a string starting with a
non-whitespace character is that character. -/
theorem collapse_head (d : Char) (cs : List Char) (h : isPyWs d = false) :
    (collapseWs (d :: cs)).head? = some d := by
  cases cs with
  | nil =>
    unfold collapseWs
    rw [if_neg (by simp [h])]
    rfl
  | cons e cs' =>
    unfold collapseWs
    rw [if_neg (by simp [h])]
    rfl

/-- Every whitespace character surviving `collapseWs` is a plain space. -/
theorem collapse_only_space : ∀ (s : List Char), ∀ c ∈ collapseWs s,
    isPyWs c = true → c = ' ' := by
  intro s
  induction s with
  | nil => intro c hc _; simp [collapseWs] at hc
  | cons a cs ih =>
    intro c hc hwc
    cases cs with
    | nil =>
      unfold collapseWs at hc
      split at hc
      · simpa using hc
      · rename_i hws
        simp only [List.mem_singleton] at hc
        subst hc
        exact absurd hwc (by simpa using hws)
    | cons d cs' =>
      unfold collapseWs at hc
      split at hc
      · split at hc
        · exact ih c hc hwc
        · simp only [List.mem_cons] at hc
          rcases hc with rfl | hc
          · rfl
          · exact ih c hc hwc
      · simp only [List.mem_cons] at hc
        rcases hc with rfl | hc
        · rename_i hws
          exact absurd hwc (by simpa using hws)
        · exact ih c hc hwc

/-- `collapseWs` never leaves two adjacent spaces. -/
theorem collapse_no_double_space : ∀ (s : List Char),
    List.Chain' (fun a b => ¬(a = ' ' ∧ b = ' ')) (collapseWs s) := by
  intro s
  induction s with
  | nil => simp [collapseWs]
  | cons a cs ih =>
    cases cs with
    | nil =>
      unfold collapseWs
      split <;> simp
    | cons d cs' =>
      unfold collapseWs
      split
      · split
        · exact ih
        · rename_i hwd
          rw [List.chain'_cons']
          refine ⟨?_, ih⟩
          intro b hb
          have hh := collapse_head d cs' (by simpa using hwd)
          rw [hh] at hb
          simp only [Option.mem_some_iff] at hb
          subst hb
          rintro ⟨-, hd⟩
          rw [hd] at hwd
          exact hwd (by decide)
      · rename_i hwa
        rw [List.chain'_cons']
        refine ⟨?_, ih⟩
        intro b _
        rintro ⟨ha, -⟩
        rw [ha] at hwa
        exact hwa (by decide)

/-- A string whose whitespace is only single spaces is a fixed point of
`collapseWs`. -/
theorem collapse_eq_self : ∀ (s : List Char),
    (∀ c ∈ s, isPyWs c = true → c = ' ') →
    List.Chain' (fun a b => ¬(a = ' ' ∧ b = ' ')) s →
    collapseWs s = s := by
  intro s
  induction s with
  | nil => intro _ _; rfl
  | cons a cs ih =>
    intro h1 h2
    cases cs with
    | nil =>
      unfold collapseWs
      split
      · rename_i hw
        rw [h1 a (List.mem_cons_self _ _) hw]
      · rfl
    | cons d cs' =>
      have ihtail := ih (fun c hc hw => h1 c (List.mem_cons_of_mem _ hc) hw) h2.tail
      unfold collapseWs
      split
      · rename_i hwa
        have ha : a = ' ' := h1 a (List.mem_cons_self _ _) hwa
        split
        · rename_i hwd
          have hd : d = ' ' :=
            h1 d (List.mem_cons_of_mem _ (List.mem_cons_self _ _)) hwd
          exact absurd (List.chain'_cons.mp h2).1 (by simp [ha, hd])
        · rw [ihtail, ha]
      · rw [ihtail]

/-- `stripPy` returns a sublist. -/
theorem stripPy_sublist (w : List Char) : List.Sublist (stripPy w) w := by
  rw [stripPy_eq_rdrop]
  exact (( List.rdropWhile_prefix _ _).sublist).trans (List.dropWhile_suffix _).sublist

/-- Splitting on newlines is trivial for newline-free strings. -/
theorem splitNl_of_no_newline : ∀ (s : List Char), '\n' ∉ s → splitNl s = [s] := by
  intro s
  induction s with
  | nil => intro _; rfl
  | cons c cs ih =>
    intro h
    unfold splitNl
    rw [if_neg (by rintro rfl; exact h (List.mem_cons_self _ _))]
    rw [ih (fun hm => h (List.mem_cons_of_mem _ hm))]

/-- Definitional shape of the default cleaning branch. -/
theorem defaultClean_eq (t : List Char) :
    defaultClean t =
      stripPy (collapseWs (stripTrailBC (stripLeadingNumWs (joinNl
        ((splitNl t).filter fun l =>
          !(stripPy l).isEmpty && !(boilerplate.contains (pyLower (stripPy l)))))))) := rfl

/-- The leading-ordinal strip is a no-op when the string does not start with
digits followed by whitespace. -/
theorem stripLeadingNumWs_eq_self (s : List Char)
    (h : s.takeWhile Char.isDigit = [] ∨
      (s.dropWhile Char.isDigit).takeWhile isPyWs = []) :
    stripLeadingNumWs s = s := by
  unfold stripLeadingNumWs
  rcases h with h | h
  · simp [h]
  · split
    · rfl
    · simp [h]

/-- The trailing-heading strip is a no-op when the string does not end
(case-insensitively, after trailing whitespace) with the heading. -/
theorem stripTrailBC_eq_self (s : List Char)
    (h : ((s.reverse.dropWhile isPyWs).take bcChars.length).map pyToLower ≠
      bcChars.reverse) :
    stripTrailBC s = s := by
  cases s with
  | nil => rfl
  | cons c cs =>
    show (stripBCrev (cs.length + 1) ((c :: cs).reverse)).reverse = c :: cs
    unfold stripBCrev
    simp only []
    rw [if_neg h]
    exact List.reverse_reverse _

/-- C2 (counterexample): the default cleaning branch is not idempotent: on
`"1 2 3"` one application strips the leading ordinal `1` and yields
`"2 3"`, and a second application strips the now-leading ordinal `2` and
yields `"3"`. -/
theorem default_clean_not_idempotent :
    clean_chunk_text (chars "1 2 3") none = chars "2 3" ∧
    clean_chunk_text (clean_chunk_text (chars "1 2 3") none) none = chars "3" ∧
    chars "2 3" ≠ chars "3" := by
  decide

/-- C2 (amended): the default cleaning branch is idempotent on every input
whose first cleaning yields a text that (i) is not itself a boilerplate
phrase (case-insensitively), (ii) does not begin with a digit run followed
by whitespace, and (iii) does not end, case-insensitively, with the
`Bibliografia Complementar` heading; each excluded case is a real second
strip, as the counterexample shows for (ii). -/
theorem default_clean_conditional_idempotent (t : List Char)
    (h1 : boilerplate.contains (pyLower (stripPy (defaultClean t))) = false)
    (h2 : (defaultClean t).takeWhile Char.isDigit = [] ∨
      ((defaultClean t).dropWhile Char.isDigit).takeWhile isPyWs = [])
    (h3 : (((defaultClean t).reverse.dropWhile isPyWs).take bcChars.length).map
        pyToLower ≠ bcChars.reverse) :
    clean_chunk_text (clean_chunk_text t none) none = clean_chunk_text t none := by
  have hct : ∀ u, clean_chunk_text u none = defaultClean u := fun u => rfl
  rw [hct, hct]
  by_cases hs0 : defaultClean t = []
  · rw [hs0]
    rfl
  · have hP1 : ∀ c ∈ defaultClean t, isPyWs c = true → c = ' ' := by
      intro c hc hw
      have hsub : List.Sublist (defaultClean t)
          (collapseWs (stripTrailBC (stripLeadingNumWs (joinNl
            ((splitNl t).filter fun l =>
              !(stripPy l).isEmpty && !(boilerplate.contains (pyLower (stripPy l)))))))) := by
        rw [defaultClean_eq]
        exact stripPy_sublist _
      exact collapse_only_space _ c (hsub.subset hc) hw
    have hP2 : List.Chain' (fun a b => ¬(a = ' ' ∧ b = ' ')) (defaultClean t) := by
      rw [defaultClean_eq, stripPy_eq_rdrop]
      exact List.Chain'.prefix
        ((collapse_no_double_space _).suffix (List.dropWhile_suffix _))
        ( List.rdropWhile_prefix _ _)
    have hnl : '\n' ∉ defaultClean t := by
      intro hm
      have := hP1 _ hm (by decide)
      exact absurd this (by decide)
    have hstrip : stripPy (defaultClean t) = defaultClean t := by
      conv_lhs => rw [defaultClean_eq]
      conv_rhs => rw [defaultClean_eq]
      exact stripPy_idem _
    conv_lhs => rw [defaultClean_eq (defaultClean t)]
    rw [splitNl_of_no_newline _ hnl]
    have hpred : (!(stripPy (defaultClean t)).isEmpty &&
        !(boilerplate.contains (pyLower (stripPy (defaultClean t))))) = true := by
      rw [hstrip] at h1
      rw [hstrip, h1]
      simp [hs0]
    have hfil : List.filter (fun l =>
        !(stripPy l).isEmpty && !(boilerplate.contains (pyLower (stripPy l))))
        [defaultClean t] = [defaultClean t] := by
      have h1' : pyLower (defaultClean t) ∉ boilerplate := by
        rw [← hstrip]
        simpa using h1
      simp [hstrip, hs0, h1']
    rw [hfil]
    rw [show joinNl [defaultClean t] = defaultClean t from rfl]
    rw [stripLeadingNumWs_eq_self _ h2, stripTrailBC_eq_self _ h3]
    rw [collapse_eq_self _ hP1 hP2]
    exact hstrip

/-- Witness for the amended C2: a text whose cleaned form triggers none of
the three second-strip conditions. -/
theorem default_clean_conditional_idempotent_witness :
    boilerplate.contains (pyLower (stripPy (defaultClean (chars "Hello  World")))) = false ∧
    (defaultClean (chars "Hello  World")).takeWhile Char.isDigit = [] ∧
    (((defaultClean (chars "Hello  World")).reverse.dropWhile isPyWs).take
        bcChars.length).map pyToLower ≠ bcChars.reverse ∧
    clean_chunk_text (clean_chunk_text (chars "Hello  World") none) none =
      clean_chunk_text (chars "Hello  World") none :=
  ⟨by decide, by decide, by decide,
   default_clean_conditional_idempotent (chars "Hello  World") (by decide)
     (Or.inl (by decide)) (by decide)⟩

/-- Digit characters built from values below ten have the expected code
point. -/
theorem digitChar_toNat (k : Nat) (hk : k < 10) :
    (Char.ofNat (48 + k)).toNat = 48 + k := by
  interval_cases k <;> decide

/-- Digit characters built from values below ten are digits. -/
theorem digitChar_isDigit (k : Nat) (hk : k < 10) :
    (Char.ofNat (48 + k)).isDigit = true := by
  interval_cases k <;> decide

/-- Reading back the decimal digits with a base-ten fold recovers the
number. -/
theorem parse_natDigitsAux : ∀ (fuel n : Nat), n < fuel →
    (natDigitsAux fuel n).foldl (fun a c => 10 * a + (c.toNat - 48)) 0 = n := by
  intro fuel
  induction fuel with
  | zero => intro n hn; omega
  | succ fuel ih =>
    intro n hn
    unfold natDigitsAux
    split
    · rename_i h10
      simp [digitChar_toNat n h10]
    · rename_i h10
      rw [List.foldl_append]
      have hdiv : n / 10 < fuel := by
        have h1 : n / 10 < n := Nat.div_lt_self (by omega) (by norm_num)
        omega
      rw [ih (n / 10) hdiv]
      simp only [List.foldl_cons, List.foldl_nil]
      rw [digitChar_toNat (n % 10) (Nat.mod_lt _ (by norm_num))]
      omega

/-- Decimal representation is injective. -/
theorem natDigits_injective (a b : Nat) (h : natDigits a = natDigits b) :
    a = b := by
  have ha := parse_natDigitsAux (a + 1) a (by omega)
  have hb := parse_natDigitsAux (b + 1) b (by omega)
  unfold natDigits at h
  rw [h] at ha
  rw [hb] at ha
  omega

/-- Every character of a decimal representation is a digit. -/
theorem natDigitsAux_digits : ∀ (fuel n : Nat), ∀ c ∈ natDigitsAux fuel n,
    c.isDigit = true := by
  intro fuel
  induction fuel with
  | zero => intro n c hc; simp [natDigitsAux] at hc
  | succ fuel ih =>
    intro n c hc
    unfold natDigitsAux at hc
    split at hc
    · rename_i h10
      simp only [List.mem_singleton] at hc
      subst hc
      exact digitChar_isDigit n h10
    · rcases List.mem_append.mp hc with hc | hc
      · exact ih _ c hc
      · simp only [List.mem_singleton] at hc
        subst hc
        exact digitChar_isDigit (n % 10) (Nat.mod_lt _ (by norm_num))

/-- No underscore occurs in a decimal representation. -/
theorem natDigits_no_underscore (n : Nat) : ∀ c ∈ natDigits n, c ≠ '_' := by
  intro c hc
  have := natDigitsAux_digits (n + 1) n c hc
  rintro rfl
  exact absurd this (by decide)

/-- Cancellation around an underscore separator when neither left part
contains an underscore. -/
theorem underscore_sep_cancel :
    ∀ (a b m n : List Char), (∀ c ∈ a, c ≠ '_') → (∀ c ∈ b, c ≠ '_') →
      a ++ '_' :: m = b ++ '_' :: n → a = b ∧ m = n := by
  intro a
  induction a with
  | nil =>
    intro b m n _ hb h
    cases b with
    | nil => simpa using h
    | cons x xs =>
      simp only [List.nil_append, List.cons_append, List.cons.injEq] at h
      exact absurd h.1.symm (hb x (List.mem_cons_self _ _))
  | cons x xs ih =>
    intro b m n ha hb h
    cases b with
    | nil =>
      simp only [List.cons_append, List.nil_append, List.cons.injEq] at h
      exact absurd h.1 (ha x (List.mem_cons_self _ _))
    | cons y ys =>
      simp only [List.cons_append, List.cons.injEq] at h
      obtain ⟨rfl, h2⟩ := h
      obtain ⟨h3, h4⟩ := ih ys m n (fun c hc => ha c (List.mem_cons_of_mem _ hc))
        (fun c hc => hb c (List.mem_cons_of_mem _ hc)) h2
      exact ⟨by rw [h3], h4⟩

/-- Every chunk's section tag is one of the six fixed tags. -/
theorem chunk_tipo_mem (text filename : List Char) (c : Chunk)
    (hc : c ∈ (process_pdf_content text filename).2) :
    c.tipo ∈ [identTag, chars "objetivo", chars "ementa",
      chars "conteudo_programatico", chars "bibliografia_basica",
      chars "bibliografia_complementar"] := by
  rw [process_pdf_content_eq] at hc
  rcases List.mem_cons.mp hc with rfl | hc
  · exact List.mem_cons_self _ _
  · rcases (assembler_tail_mem _ _ c hc).2 with h | h | h | h | h <;> simp [h]

/-- No two distinct fixed section tags are prefixes of one another. -/
theorem tipo_pairwise :
    ∀ T1 ∈ ([identTag, chars "objetivo", chars "ementa",
        chars "conteudo_programatico", chars "bibliografia_basica",
        chars "bibliografia_complementar"] : List (List Char)),
      ∀ T2 ∈ ([identTag, chars "objetivo", chars "ementa",
        chars "conteudo_programatico", chars "bibliografia_basica",
        chars "bibliografia_complementar"] : List (List Char)),
      T1 = T2 ∨ (¬ List.IsPrefix T1 T2 ∧ ¬ List.IsPrefix T2 T1) := by
  intro T1 h1 T2 h2
  fin_cases h1 <;> fin_cases h2 <;>
    first
    | (left; rfl)
    | (right; exact ⟨by decide, by decide⟩)

/-- The tail of a storage identifier determines the tag, index and model
name, given tags from the fixed set. -/
theorem tipo_id_cancel (T1 T2 : List Char)
    (h1 : T1 ∈ ([identTag, chars "objetivo", chars "ementa",
        chars "conteudo_programatico", chars "bibliografia_basica",
        chars "bibliografia_complementar"] : List (List Char)))
    (h2 : T2 ∈ ([identTag, chars "objetivo", chars "ementa",
        chars "conteudo_programatico", chars "bibliografia_basica",
        chars "bibliografia_complementar"] : List (List Char)))
    (i j : Nat) (m n : List Char)
    (h : T1 ++ '_' :: (natDigits i ++ '_' :: m) =
         T2 ++ '_' :: (natDigits j ++ '_' :: n)) :
    T1 = T2 ∧ i = j ∧ m = n := by
  have hp1 : List.IsPrefix T1 (T1 ++ '_' :: (natDigits i ++ '_' :: m)) :=
    List.prefix_append _ _
  have hp2 : List.IsPrefix T2 (T1 ++ '_' :: (natDigits i ++ '_' :: m)) := by
    rw [h]
    exact List.prefix_append _ _
  have hT : T1 = T2 := by
    rcases List.prefix_or_prefix_of_prefix hp1 hp2 with hp | hp
    · rcases tipo_pairwise T1 h1 T2 h2 with he | ⟨hn1, _⟩
      · exact he
      · exact absurd hp hn1
    · rcases tipo_pairwise T1 h1 T2 h2 with he | ⟨_, hn2⟩
      · exact he
      · exact absurd hp hn2
  subst hT
  have h3 := List.append_cancel_left h
  injection h3 with _ h4
  obtain ⟨h5, h6⟩ := underscore_sep_cancel _ _ _ _
    (natDigits_no_underscore i) (natDigits_no_underscore j) h4
  exact ⟨rfl, natDigits_injective _ _ h5, h6⟩

/-- C6: within a single document's processing the storage identifiers
`codigo_tipo_i_model` are pairwise distinct across all (chunk index, model
name) combinations: the fixed section tags contain no digits, the decimal
index contains no underscore, and the model name is the remaining suffix,
so the underscore-separated identifier parses unambiguously. -/
theorem chunk_ids_unique (text filename codigo : List Char) (i j : Nat)
    (m n : List Char)
    (hi : i < (process_pdf_content text filename).2.length)
    (hj : j < (process_pdf_content text filename).2.length)
    (hne : i ≠ j ∨ m ≠ n) :
    mkChunkId codigo ((process_pdf_content text filename).2.get ⟨i, hi⟩).tipo i m ≠
      mkChunkId codigo ((process_pdf_content text filename).2.get ⟨j, hj⟩).tipo j n := by
  intro heq
  unfold mkChunkId at heq
  simp only [List.append_assoc, List.cons_append] at heq
  have h1 := @List.append_cancel_left _ codigo _ _ heq
  injection h1 with _ h2
  have hmi : ((process_pdf_content text filename).2.get ⟨i, hi⟩).tipo ∈ _ :=
    chunk_tipo_mem text filename _ (List.get_mem _ _ hi)
  have hmj : ((process_pdf_content text filename).2.get ⟨j, hj⟩).tipo ∈ _ :=
    chunk_tipo_mem text filename _ (List.get_mem _ _ hj)
  obtain ⟨-, hij, hmn⟩ := tipo_id_cancel _ _ hmi hmj i j m n h2
  rcases hne with hne | hne
  · exact hne hij
  · exact hne hmn

/-- Witness for C6 at a two-chunk document, equal tags distinguished by the
index and equal indices impossible here. -/
theorem chunk_ids_unique_witness :
    (0 : Nat) < (process_pdf_content (chars "Objetivo x Ementa") (chars "f.pdf")).2.length ∧
    (1 : Nat) < (process_pdf_content (chars "Objetivo x Ementa") (chars "f.pdf")).2.length ∧
    ((0 : Nat) ≠ 1 ∨ chars "all-MiniLM-L6-v2" ≠ chars "all-MiniLM-L6-v2") ∧
    mkChunkId (chars "f") (((process_pdf_content (chars "Objetivo x Ementa")
        (chars "f.pdf")).2.get ⟨0, by decide⟩).tipo) 0 (chars "all-MiniLM-L6-v2") ≠
      mkChunkId (chars "f") (((process_pdf_content (chars "Objetivo x Ementa")
        (chars "f.pdf")).2.get ⟨1, by decide⟩).tipo) 1 (chars "all-MiniLM-L6-v2") :=
  ⟨by decide, by decide, Or.inl (by decide),
   chunk_ids_unique (chars "Objetivo x Ementa") (chars "f.pdf") (chars "f") 0 1
     (chars "all-MiniLM-L6-v2") (chars "all-MiniLM-L6-v2") (by decide) (by decide)
     (Or.inl (by decide))⟩

/-- Shape of every record produced by the per-model insertion loop. -/
theorem recordsForChunks_mem (codigo source model : List Char) :
    ∀ (k : Nat) (chunks : List Chunk) (r : StoredRecord),
      r ∈ recordsForChunks codigo source model k chunks →
      r.m_codigo = codigo ∧ r.m_source = source ∧
      ∃ i tp, r.id = mkChunkId codigo tp i model := by
  intro k chunks
  induction chunks generalizing k with
  | nil => intro r hr; simp [recordsForChunks] at hr
  | cons c cs ih =>
    intro r hr
    unfold recordsForChunks at hr
    rcases List.mem_cons.mp hr with rfl | hr
    · exact ⟨rfl, rfl, k, c.tipo, rfl⟩
    · exact ih (k + 1) r hr

/-- Shape of every record produced for a document across all models. -/
theorem recordsFor_mem (codigo source : List Char) (chunks : List Chunk)
    (models : List (List Char)) (r : StoredRecord)
    (hr : r ∈ recordsFor codigo source chunks models) :
    r.m_codigo = codigo ∧ r.m_source = source ∧
    ∃ i tp m, m ∈ models ∧ r.id = mkChunkId codigo tp i m := by
  unfold recordsFor at hr
  obtain ⟨l, hl, hrl⟩ := List.mem_flatten.mp hr
  obtain ⟨m, hm, rfl⟩ := List.mem_map.mp hl
  obtain ⟨h1, h2, i, tp, h3⟩ := recordsForChunks_mem codigo source m 0 chunks r hrl
  exact ⟨h1, h2, i, tp, m, hm, h3⟩

/-- C3 (counterexample): for the file `OP63P.pdf` whose text carries the
in-text code `CC56E`, the per-document insertion loop of the directory
driver (`process_all_pdfs_in_directory`) keys every record by the
Assembler-derived `CC56E`, not by the filename stem `OP63P`: the
claimed overwrite happens only in `process_pdf_and_add_to_collections`. -/
theorem directory_driver_uses_assembler_codigo :
    splitextStem (chars "OP63P.pdf") = chars "OP63P" ∧
    (process_pdf_content (chars "CC56E X") (chars "OP63P.pdf")).1.codigo =
      some (chars "CC56E") ∧
    ((directory_driver_records (chars "OP63P.pdf") (chars "CC56E X")
        [chars "m"]).map (fun r => (r.m_codigo, r.id))).head? =
      some (chars "CC56E", chars "CC56E_identificacao_0_m") ∧
    chars "CC56E" ≠ chars "OP63P" := by
  decide

/-- C3 (amended): the single-document ingestion function
(`process_pdf_and_add_to_collections`) does overwrite the stored `codigo`
with the filename stem and uses it, together with the filename as `source`,
in every record and every identifier; the directory driver's insertion loop
instead uses the Assembler-derived `codigo` in every record and identifier
(setting each record's `source` to the filename but never overriding
`codigo`). -/
theorem driver_record_codigo (source text : List Char)
    (models : List (List Char)) (r : StoredRecord) :
    (r ∈ process_pdf_and_add_to_collections source text models →
      r.m_codigo = splitextStem source ∧ r.m_source = source ∧
      ∃ i tp m, m ∈ models ∧ r.id = mkChunkId (splitextStem source) tp i m) ∧
    (r ∈ directory_driver_records source text models →
      r.m_codigo = (process_pdf_content text source).1.codigo.getD [] ∧
      r.m_source = source ∧
      ∃ i tp m, m ∈ models ∧
        r.id = mkChunkId ((process_pdf_content text source).1.codigo.getD []) tp i m) := by
  constructor
  · intro hr
    exact recordsFor_mem _ _ _ _ _ hr
  · intro hr
    exact recordsFor_mem _ _ _ _ _ hr

/-- Witness for the amended C3 on the mismatched-filename document. -/
theorem driver_record_codigo_witness :
    (((process_pdf_and_add_to_collections (chars "OP63P.pdf") (chars "CC56E X")
        [chars "m"]).headD
          { id := [], document := [], m_source := [], m_tipo := [], m_codigo := []
            m_disciplina := none, m_modalidade := [], m_oferta := [], m_secao := none }) ∈
        process_pdf_and_add_to_collections (chars "OP63P.pdf") (chars "CC56E X")
          [chars "m"]) ∧
    (((process_pdf_and_add_to_collections (chars "OP63P.pdf") (chars "CC56E X")
        [chars "m"]).headD
          { id := [], document := [], m_source := [], m_tipo := [], m_codigo := []
            m_disciplina := none, m_modalidade := [], m_oferta := [], m_secao := none
            }).m_codigo = splitextStem (chars "OP63P.pdf") ∧
      ((process_pdf_and_add_to_collections (chars "OP63P.pdf") (chars "CC56E X")
        [chars "m"]).headD
          { id := [], document := [], m_source := [], m_tipo := [], m_codigo := []
            m_disciplina := none, m_modalidade := [], m_oferta := [], m_secao := none
            }).m_source = chars "OP63P.pdf" ∧
      ∃ i tp m, m ∈ [chars "m"] ∧
        ((process_pdf_and_add_to_collections (chars "OP63P.pdf") (chars "CC56E X")
          [chars "m"]).headD
            { id := [], document := [], m_source := [], m_tipo := [], m_codigo := []
              m_disciplina := none, m_modalidade := [], m_oferta := [], m_secao := none
              }).id = mkChunkId (splitextStem (chars "OP63P.pdf")) tp i m) ∧
    (((directory_driver_records (chars "OP63P.pdf") (chars "CC56E X")
        [chars "m"]).headD
          { id := [], document := [], m_source := [], m_tipo := [], m_codigo := []
            m_disciplina := none, m_modalidade := [], m_oferta := [], m_secao := none }) ∈
        directory_driver_records (chars "OP63P.pdf") (chars "CC56E X") [chars "m"]) ∧
    (((directory_driver_records (chars "OP63P.pdf") (chars "CC56E X")
        [chars "m"]).headD
          { id := [], document := [], m_source := [], m_tipo := [], m_codigo := []
            m_disciplina := none, m_modalidade := [], m_oferta := [], m_secao := none
            }).m_codigo =
        (process_pdf_content (chars "CC56E X") (chars "OP63P.pdf")).1.codigo.getD [] ∧
      ((directory_driver_records (chars "OP63P.pdf") (chars "CC56E X")
        [chars "m"]).headD
          { id := [], document := [], m_source := [], m_tipo := [], m_codigo := []
            m_disciplina := none, m_modalidade := [], m_oferta := [], m_secao := none
            }).m_source = chars "OP63P.pdf" ∧
      ∃ i tp m, m ∈ [chars "m"] ∧
        ((directory_driver_records (chars "OP63P.pdf") (chars "CC56E X")
          [chars "m"]).headD
            { id := [], document := [], m_source := [], m_tipo := [], m_codigo := []
              m_disciplina := none, m_modalidade := [], m_oferta := [], m_secao := none
              }).id =
          mkChunkId ((process_pdf_content (chars "CC56E X")
            (chars "OP63P.pdf")).1.codigo.getD []) tp i m) :=
  ⟨by decide,
   (driver_record_codigo (chars "OP63P.pdf") (chars "CC56E X") [chars "m"] _).1
     (by decide),
   by decide,
   (driver_record_codigo (chars "OP63P.pdf") (chars "CC56E X") [chars "m"] _).2
     (by decide)⟩

/-- One step of the directory driver: run the document body, log a failure
with the file's identity, continue with the rest from the body's store. -/
theorem driver_cons {E : Type} (extract : List Char → Option (List Char))
    (encode : List Char → List Char → Except E Unit)
    (ins : StoredRecord → Except E Unit) (models : List (List Char))
    (f : List Char) (fs : List (List Char)) (st : List StoredRecord) :
    process_all_pdfs_in_directory extract encode ins models (f :: fs) st =
      ((process_all_pdfs_in_directory extract encode ins models fs
          (processDocBody extract encode ins models f st).1).1,
        (match (processDocBody extract encode ins models f st).2 with
          | some e => [(f, e)]
          | none => []) ++
          (process_all_pdfs_in_directory extract encode ins models fs
            (processDocBody extract encode ins models f st).1).2) := rfl

/-- The per-chunk insertion loop only appends to the store, failure or not. -/
theorem insertChunks_grows {E : Type}
    (encode : List Char → List Char → Except E Unit)
    (ins : StoredRecord → Except E Unit) (codigo source model : List Char) :
    ∀ (cs : List Chunk) (i : Nat) (st : List StoredRecord),
      List.IsPrefix st (insertChunks encode ins codigo source model i cs st).1 := by
  intro cs
  induction cs with
  | nil => intro i st; exact List.prefix_refl _
  | cons c cs ih =>
    intro i st
    unfold insertChunks
    cases henc : encode model c.text with
    | error e => exact List.prefix_refl _
    | ok u =>
      dsimp only
      cases hins : ins (recordEntry codigo source i c model) with
      | error e => exact List.prefix_refl _
      | ok v => exact (List.prefix_append st _).trans (ih (i + 1) _)

/-- The per-model insertion loop only appends to the store. -/
theorem insertModels_grows {E : Type}
    (encode : List Char → List Char → Except E Unit)
    (ins : StoredRecord → Except E Unit) (codigo source : List Char)
    (chunks : List Chunk) :
    ∀ (ms : List (List Char)) (st : List StoredRecord),
      List.IsPrefix st (insertModels encode ins codigo source chunks ms st).1 := by
  intro ms
  induction ms with
  | nil => intro st; exact List.prefix_refl _
  | cons m ms ih =>
    intro st
    unfold insertModels
    cases hic : insertChunks encode ins codigo source m 0 chunks st with
    | mk st' e? =>
      have hpre : List.IsPrefix st st' := by
        have := insertChunks_grows encode ins codigo source m chunks 0 st
        rw [hic] at this
        exact this
      cases e? with
      | some e => exact hpre
      | none => exact hpre.trans (ih st')

/-- A document's processing only appends to the store, whether it skips,
fails partway, or completes. -/
theorem processDocBody_grows {E : Type}
    (extract : List Char → Option (List Char))
    (encode : List Char → List Char → Except E Unit)
    (ins : StoredRecord → Except E Unit) (models : List (List Char))
    (f : List Char) (st : List StoredRecord) :
    List.IsPrefix st (processDocBody extract encode ins models f st).1 := by
  unfold processDocBody
  cases hext : extract f with
  | none => exact List.prefix_refl _
  | some text =>
    dsimp only
    by_cases htext : text = []
    · rw [if_pos htext]
    · rw [if_neg htext]
      exact insertModels_grows _ _ _ _ _ _ _

/-- The whole driver only appends to the store. -/
theorem driver_grows {E : Type} (extract : List Char → Option (List Char))
    (encode : List Char → List Char → Except E Unit)
    (ins : StoredRecord → Except E Unit) (models : List (List Char)) :
    ∀ (fs : List (List Char)) (st : List StoredRecord),
      List.IsPrefix st
        (process_all_pdfs_in_directory extract encode ins models fs st).1 := by
  intro fs
  induction fs with
  | nil => intro st; exact List.prefix_refl _
  | cons f fs ih =>
    intro st
    rw [driver_cons]
    exact (processDocBody_grows extract encode ins models f st).trans (ih _)

/-- The driver on a concatenation is the driver on the first part followed
by the driver on the second part from the accumulated store, logs
concatenated. -/
theorem driver_append {E : Type} (extract : List Char → Option (List Char))
    (encode : List Char → List Char → Except E Unit)
    (ins : StoredRecord → Except E Unit) (models : List (List Char)) :
    ∀ (fs1 fs2 : List (List Char)) (st : List StoredRecord),
      process_all_pdfs_in_directory extract encode ins models (fs1 ++ fs2) st =
        ((process_all_pdfs_in_directory extract encode ins models fs2
            (process_all_pdfs_in_directory extract encode ins models fs1 st).1).1,
          (process_all_pdfs_in_directory extract encode ins models fs1 st).2 ++
            (process_all_pdfs_in_directory extract encode ins models fs2
              (process_all_pdfs_in_directory extract encode ins models fs1 st).1).2) := by
  intro fs1
  induction fs1 with
  | nil =>
    intro fs2 st
    show process_all_pdfs_in_directory extract encode ins models fs2 st = _
    rfl
  | cons f fs ih =>
    intro fs2 st
    rw [List.cons_append, driver_cons, driver_cons, ih]
    simp [List.append_assoc]

/-- C9: per-document failure isolation of the Ingestion Driver.  For any
collaborators, any directory contents `pre ++ f :: post` and any starting
store: (1) the driver's run decomposes through document `f` — the documents
after `f` are processed from exactly the store `f` left behind, so one
failing document never aborts the batch; (2) processing `f` only appends to
the store, so the records `f` inserted before a failure are kept (no
rollback), and (3) they survive into the final store; (4) a failure while
processing `f` is logged with `f`'s identity in the driver's error log. -/
theorem driver_per_document_isolation {E : Type}
    (extract : List Char → Option (List Char))
    (encode : List Char → List Char → Except E Unit)
    (ins : StoredRecord → Except E Unit) (models : List (List Char))
    (pre post : List (List Char)) (f : List Char) (st : List StoredRecord)
    (e : E) :
    (process_all_pdfs_in_directory extract encode ins models (pre ++ f :: post) st =
      ((process_all_pdfs_in_directory extract encode ins models post
          (processDocBody extract encode ins models f
            (process_all_pdfs_in_directory extract encode ins models pre st).1).1).1,
        (process_all_pdfs_in_directory extract encode ins models pre st).2 ++
          ((match (processDocBody extract encode ins models f
              (process_all_pdfs_in_directory extract encode ins models pre st).1).2 with
            | some e' => [(f, e')]
            | none => []) ++
            (process_all_pdfs_in_directory extract encode ins models post
              (processDocBody extract encode ins models f
                (process_all_pdfs_in_directory extract encode ins models pre st).1).1).2))) ∧
    List.IsPrefix
      (process_all_pdfs_in_directory extract encode ins models pre st).1
      (processDocBody extract encode ins models f
        (process_all_pdfs_in_directory extract encode ins models pre st).1).1 ∧
    List.IsPrefix
      (processDocBody extract encode ins models f
        (process_all_pdfs_in_directory extract encode ins models pre st).1).1
      (process_all_pdfs_in_directory extract encode ins models (pre ++ f :: post) st).1 ∧
    ((processDocBody extract encode ins models f
        (process_all_pdfs_in_directory extract encode ins models pre st).1).2 = some e →
      (f, e) ∈
        (process_all_pdfs_in_directory extract encode ins models (pre ++ f :: post) st).2) := by
  have hdec := driver_append extract encode ins models pre (f :: post) st
  rw [driver_cons] at hdec
  refine ⟨hdec, processDocBody_grows _ _ _ _ _ _, ?_, ?_⟩
  · rw [hdec]
    exact driver_grows _ _ _ _ _ _
  · intro hfail
    rw [hdec]
    simp [hfail]

/-- Witness for C9: one directory of three files where the middle document
fails at its first embedding call after the first document inserted its
records; the failure is logged for the middle file and the third file is
still processed. -/
theorem driver_per_document_isolation_witness :
    ((processDocBody (E := Nat) (fun p => some p)
        (fun _ t => if t = chars "x" then Except.error 7 else Except.ok ())
        (fun _ => Except.ok ()) [chars "m"] (chars "Objetivo x Ementa")
        (process_all_pdfs_in_directory (fun p => some p)
          (fun _ t => if t = chars "x" then Except.error 7 else Except.ok ())
          (fun _ => Except.ok ()) [chars "m"] [chars "a.pdf"] []).1).2 = some 7) ∧
    ((chars "Objetivo x Ementa", 7) ∈
      (process_all_pdfs_in_directory (E := Nat) (fun p => some p)
        (fun _ t => if t = chars "x" then Except.error 7 else Except.ok ())
        (fun _ => Except.ok ()) [chars "m"]
        ([chars "a.pdf"] ++ chars "Objetivo x Ementa" :: [chars "b.pdf"]) []).2) :=
  ⟨by decide,
   (driver_per_document_isolation (fun p => some p)
      (fun _ t => if t = chars "x" then Except.error 7 else Except.ok ())
      (fun _ => Except.ok ()) [chars "m"] [chars "a.pdf"] [chars "b.pdf"]
      (chars "Objetivo x Ementa") [] 7).2.2.2 (by decide)⟩
